import Mathlib

/-!
Verification development for the bmstu-labs-utility repository
(`src/utility/array_input.py` and `src/utility/matrix_input.py`).

The two Python modules implement interactive grid editors for arrays and
matrices.  This file gives a shallow embedding of their data model and
operations: Python `float` semantics (IEEE-754 binary64) are modelled with
exact integer arithmetic, the editor loops become explicit step functions on
state, and Python exceptions become an `Except` monad.
-/

namespace BmstuLabs

/-- Python exceptions observable in the embedded code. -/
inductive PyExn
  | valueError
  | overflowError
  | typeError
  deriving DecidableEq

/-- A Python `float`: NaN, a signed infinity, or a signed finite value with
magnitude `m * 2 ^ ue` (the canonical binary64 representation; `m = 0` with a
sign models signed zero). -/
inductive PyFloat
  | nan
  | inf (neg : Bool)
  | finite (neg : Bool) (m : Nat) (ue : Int)
  deriving DecidableEq

/-- Fuel used by logarithm searches; it exceeds the binary64 exponent range. -/
def floatFuel : Nat := 1400

/-- Largest `e` with `den * b ^ e ≤ num`, assuming `den ≤ num` and `2 ≤ b`. -/
def lupFuel (b : Nat) : Nat → Nat → Nat → Nat
  | 0, _, _ => 0
  | f + 1, num, den => if den * b ≤ num then lupFuel b f num (den * b) + 1 else 0

/-- Smallest `k ≥ 1` with `den ≤ num * b ^ k`, assuming `num < den`. -/
def ldownFuel (b : Nat) : Nat → Nat → Nat → Nat
  | 0, _, _ => 1
  | f + 1, num, den => if den ≤ num * b then 1 else ldownFuel b f (num * b) den + 1

/-- `⌊log_b (num / den)⌋` for positive `num den`, by exact integer search. -/
def flogB (b num den : Nat) : Int :=
  if den ≤ num then (lupFuel b floatFuel num den : Int)
  else -(ldownFuel b floatFuel num den : Int)

/-- Round `num / den` to the nearest integer, ties to even. -/
def rhe (num den : Nat) : Nat :=
  let q := num / den
  let r := num % den
  if 2 * r < den then q
  else if den < 2 * r then q + 1
  else if q % 2 = 0 then q else q + 1

/-- Round the positive rational `num / den` to the nearest binary64 value
(round to nearest, ties to even).  Returns `none` on overflow to infinity and
otherwise the canonical pair `(m, ue)` with value `m * 2 ^ ue`. -/
def roundFloatMag (num den : Nat) : Option (Nat × Int) :=
  if num = 0 then some (0, 0) else
  let e := flogB 2 num den
  let ue := max (e - 52) (-1074)
  let m := if 0 ≤ ue then rhe num (den * 2 ^ ue.toNat) else rhe (num * 2 ^ (-ue).toNat) den
  let p := if m = 2 ^ 53 then (2 ^ 52, ue + 1) else (m, ue)
  if p.1 = 0 then some (0, 0)
  else if 971 ≤ p.2 ∧ 2 ^ 53 ≤ p.1 * 2 ^ (p.2 - 971).toNat then none
  else some p

/-- Characters stripped from both ends by Python `float(...)`. -/
def isWsPy (c : Char) : Bool :=
  c == ' ' || c == '\t' || c == '\n' || c == '\r' || c == '\x0b' || c == '\x0c'

/-- Strip leading and trailing whitespace. -/
def stripWsL (l : List Char) : List Char :=
  ((l.dropWhile isWsPy).reverse.dropWhile isWsPy).reverse

/-- Numeric value of an ASCII digit. -/
def digitVal (c : Char) : Nat := c.toNat - 48

/-- Natural number denoted by a list of ASCII digits. -/
def natOfDigits (l : List Char) : Nat :=
  l.foldl (fun a c => a * 10 + digitVal c) 0

/-- Continue a digit run after its first digit: Python permits a single
underscore between two digits and nothing else. -/
def digRunAux : Nat → List Char → Option (List Char × List Char)
  | 0, l => some ([], l)
  | f + 1, l =>
    match l with
    | '_' :: c :: rest =>
      if c.isDigit then (digRunAux f rest).map (fun p => (c :: p.1, p.2)) else none
    | ['_'] => none
    | c :: rest =>
      if c.isDigit then (digRunAux f rest).map (fun p => (c :: p.1, p.2)) else some ([], l)
    | [] => some ([], [])

/-- Parse a Python `digitpart`: at least one digit, single underscores allowed
between digits.  Returns the digits and the unconsumed remainder. -/
def digRun (l : List Char) : Option (List Char × List Char) :=
  match l with
  | c :: rest =>
    if c.isDigit then (digRunAux rest.length rest).map (fun p => (c :: p.1, p.2)) else none
  | [] => none

/-- Parse the numeric body of a Python float literal (after the sign), to the
end of input: integer digits, fractional digits, and the decimal exponent. -/
def parseDecLit (l : List Char) : Option (List Char × List Char × Int) := do
  let (ip, fr, r) ← (match l with
    | '.' :: r => (digRun r).map (fun p => (([] : List Char), p.1, p.2))
    | _ =>
      (digRun l).bind (fun p =>
        match p.2 with
        | '.' :: r2 =>
          match digRun r2 with
          | some q => some (p.1, q.1, q.2)
          | none => some (p.1, ([] : List Char), r2)
        | _ => some (p.1, ([] : List Char), p.2)))
  match r with
  | [] => some (ip, fr, (0 : Int))
  | c :: r4 =>
    if c == 'e' || c == 'E' then
      let sr : Int × List Char :=
        match r4 with
        | '+' :: r5 => (1, r5)
        | '-' :: r5 => (-1, r5)
        | _ => (1, r4)
      match digRun sr.2 with
      | some (eds, []) => some (ip, fr, sr.1 * (natOfDigits eds : Int))
      | _ => none
    else none

/-- ASCII digit character for `n < 10`. -/
def digitChar10 (n : Nat) : Char := Char.ofNat (48 + n)

/-- Decimal digits of `n`, most significant first (fuel-driven). -/
def natDigitsAux : Nat → Nat → List Char
  | 0, n => [digitChar10 (n % 10)]
  | f + 1, n => if n < 10 then [digitChar10 n] else natDigitsAux f (n / 10) ++ [digitChar10 (n % 10)]

/-- Decimal digit characters of `n`, no leading zeros (`0` gives `"0"`). -/
def natDigitsCh (n : Nat) : List Char := natDigitsAux n n

/-- Build the finite/overflowed/underflowed float denoted by
`± num * 10 ^ e10`, with conservative guards so huge exponents never force
huge power computations. -/
def mkFinite (neg : Bool) (num : Nat) (e10 : Int) : PyFloat :=
  if num = 0 then .finite neg 0 0
  else
    let effLen : Int := (natDigitsCh num).length
    if (309 : Int) ≤ effLen - 1 + e10 then .inf neg
    else if effLen + e10 ≤ (-330 : Int) then .finite neg 0 0
    else
      let nd := if 0 ≤ e10 then (num * 10 ^ e10.toNat, 1) else (num, 10 ^ (-e10).toNat)
      match roundFloatMag nd.1 nd.2 with
      | none => .inf neg
      | some p => .finite neg p.1 p.2

/-- Python `float(s)`: `none` models a raised `ValueError`. -/
def pyFloatOfString (s : String) : Option PyFloat :=
  let l := stripWsL s.data
  let sl : Bool × List Char :=
    match l with
    | '+' :: r => (false, r)
    | '-' :: r => (true, r)
    | _ => (false, l)
  let low := sl.2.map Char.toLower
  if low = ['i', 'n', 'f'] ∨ low = ['i', 'n', 'f', 'i', 'n', 'i', 't', 'y'] then some (.inf sl.1)
  else if low = ['n', 'a', 'n'] then some PyFloat.nan
  else
    match parseDecLit sl.2 with
    | none => none
    | some (ip, fr, ex) => some (mkFinite sl.1 (natOfDigits (ip ++ fr)) (ex - fr.length))

/-- The `nd`-significant-digit decimal nearest to `num / den` whose leading
digit sits at decimal position `x = ⌊log10 (num/den)⌋`: returns `(m10, k)`
denoting `m10 * 10 ^ k`. -/
def decCandidate (num den : Nat) (x : Int) (nd : Nat) : Nat × Int :=
  let k := x - nd + 1
  let m10 := if 0 ≤ k then rhe num (den * 10 ^ k.toNat) else rhe (num * 10 ^ (-k).toNat) den
  if m10 = 10 ^ nd then (10 ^ (nd - 1), k + 1) else (m10, k)

/-- Does the decimal `c.1 * 10 ^ c.2` round back to the binary64 `(m, ue)`? -/
def roundtripOk (c : Nat × Int) (m : Nat) (ue : Int) : Bool :=
  let nd := if 0 ≤ c.2 then (c.1 * 10 ^ c.2.toNat, 1) else (c.1, 10 ^ (-c.2).toNat)
  roundFloatMag nd.1 nd.2 == some (m, ue)

/-- Shortest-round-trip search: try 1, 2, … significant digits and keep the
first candidate that reads back to the same binary64 value. -/
def shortestDec (num den : Nat) (m : Nat) (ue : Int) (x : Int) : Nat → Nat → Nat × Int
  | nd, 0 => decCandidate num den x nd
  | nd, f + 1 =>
    let c := decCandidate num den x nd
    if roundtripOk c m ue then c else shortestDec num den m ue x (nd + 1) f

/-- Strip factors of ten from `m10`, shifting them into the exponent. -/
def dropTens : Nat → Nat → Int → Nat × Int
  | 0, m, k => (m, k)
  | f + 1, m, k => if m ≠ 0 ∧ m % 10 = 0 then dropTens f (m / 10) (k + 1) else (m, k)

/-- Pad an exponent digit string to at least two digits. -/
def pad2 (l : List Char) : List Char := if l.length = 1 then '0' :: l else l

/-- Render the decimal `m10 * 10 ^ k` (with `m10 > 0`, no trailing zero
factors) the way Python `repr` presents a float: fixed notation with a
mandatory fractional part when the decimal exponent is in `[-4, 16)`,
otherwise scientific notation with a signed two-digit-minimum exponent. -/
def renderDec (m10 : Nat) (k : Int) : List Char :=
  let ds := natDigitsCh m10
  let len : Int := ds.length
  let e10 := k + len - 1
  if -4 ≤ e10 ∧ e10 < 16 then
    if 0 ≤ k then ds ++ List.replicate k.toNat '0' ++ ['.', '0']
    else if 0 ≤ e10 then ds.take (e10 + 1).toNat ++ ['.'] ++ ds.drop (e10 + 1).toNat
    else ['0', '.'] ++ List.replicate (-e10 - 1).toNat '0' ++ ds
  else
    (match ds with
     | [] => []
     | d :: rest => d :: (if rest = [] then [] else '.' :: rest))
      ++ ['e'] ++ (if e10 < 0 then ['-'] else ['+']) ++ pad2 (natDigitsCh e10.natAbs)

/-- Shortest repr digits of the positive binary64 magnitude `m * 2 ^ ue`. -/
def reprPosMag (m : Nat) (ue : Int) : List Char :=
  let nd := if 0 ≤ ue then (m * 2 ^ ue.toNat, 1) else (m, 2 ^ (-ue).toNat)
  let x := flogB 10 nd.1 nd.2
  let c := shortestDec nd.1 nd.2 m ue x 1 17
  let c2 := dropTens 17 c.1 c.2
  renderDec c2.1 c2.2

/-- Python `f"{num}"` (= `repr`) for a float. -/
def pyFloatRepr (f : PyFloat) : String :=
  match f with
  | .nan => "nan"
  | .inf neg => if neg then "-inf" else "inf"
  | .finite neg m ue =>
    if m = 0 then (if neg then "-0.0" else "0.0")
    else ⟨(if neg then ['-'] else []) ++ reprPosMag m ue⟩

/-- Python `s.rstrip(c)`: drop every trailing occurrence of `c`. -/
def rstripChar (c : Char) (l : List Char) : List Char :=
  (l.reverse.dropWhile (fun d => d == c)).reverse

/-- `s.rstrip('0').rstrip('.')`, applied by `format_number` when `'.' ∈ s`. -/
def stripIfDot (s : String) : String :=
  if s.data.contains '.' then ⟨rstripChar '.' (rstripChar '0' s.data)⟩ else s

/-- `int(float)` truncation toward zero of the finite float `± m * 2 ^ ue`. -/
def truncInt (neg : Bool) (m : Nat) (ue : Int) : Int :=
  let n := if 0 ≤ ue then m * 2 ^ ue.toNat else m / 2 ^ (-ue).toNat
  if neg then -(n : Int) else (n : Int)

/-- Python `str(int(float))` for a finite float. -/
def pyTruncStr (neg : Bool) (m : Nat) (ue : Int) : String :=
  let n := if 0 ≤ ue then m * 2 ^ ue.toNat else m / 2 ^ (-ue).toNat
  if n = 0 then "0" else ⟨(if neg then ['-'] else []) ++ natDigitsCh n⟩

instance {ε α : Type} [DecidableEq ε] [DecidableEq α] : DecidableEq (Except ε α) := fun x y =>
  match x, y with
  | .error a, .error b =>
    if h : a = b then .isTrue (congrArg Except.error h)
    else .isFalse (fun hh => h (Except.error.inj hh))
  | .ok a, .ok b =>
    if h : a = b then .isTrue (congrArg Except.ok h)
    else .isFalse (fun hh => h (Except.ok.inj hh))
  | .error _, .ok _ => .isFalse (fun hh => Except.noConfusion hh)
  | .ok _, .error _ => .isFalse (fun hh => Except.noConfusion hh)

/-- Python `value[:-1]`. -/
def dropLastStr (s : String) : String := ⟨s.data.dropLast⟩

/-- A validator as the editors use it: Python functions returning
`(ok, message)`, possibly raising. -/
def Validator : Type := String → Except PyExn (Bool × String)

/-- Outcome of one whole editing session driven by a finite action script. -/
inductive RunOut (α σ : Type)
  | finished (a : α)
  | cancelled
  | pending (s : σ)
  deriving DecidableEq

/-- Result of a public entry point: the Python return value (`value`/`None`
for cancel) or, for a script that does not end the session, `pending`. -/
inductive EntryOut (α : Type)
  | value (a : α)
  | cancelled
  | pending
  deriving DecidableEq

namespace array_input

/-- `format_number` from `src/utility/array_input.py` (lines 19-31):
`str(int(float(value)))` in integer mode (where `int(...)` of NaN raises the
caught `ValueError` and of an infinity raises an uncaught `OverflowError`);
otherwise `f"{float(value)}"` with `.rstrip('0').rstrip('.')` when a dot is
present; on `ValueError` the raw text is returned unchanged. -/
def format_number (value : String) (as_int : Bool) : Except PyExn String :=
  match pyFloatOfString value with
  | none => .ok value
  | some f =>
    if as_int then
      match f with
      | .nan => .ok value
      | .inf _ => .error .overflowError
      | .finite neg m ue => .ok (pyTruncStr neg m ue)
    else .ok (stripIfDot (pyFloatRepr f))

/-- `default_validator` from `src/utility/array_input.py` (lines 48-56):
`int(float(value))` or `float(value)` inside `try ... except ValueError`. -/
def default_validator (as_int : Bool) (value : String) : Except PyExn (Bool × String) :=
  match pyFloatOfString value with
  | none => .ok (false, "Введите корректное число")
  | some f =>
    if as_int then
      match f with
      | .nan => .ok (false, "Введите корректное число")
      | .inf _ => .error .overflowError
      | .finite _ _ _ => .ok (true, "")
    else .ok (true, "")

/-- Mutable state of `input_array`: `array`, `current_pos`, `current_value`,
`error_message`. -/
structure AState where
  array : List String
  pos : Nat
  buf : String
  err : String
  deriving DecidableEq

/-- Editing actions recognized by the `input_array` loop. -/
inductive AAct
  | confirm
  | delete
  | moveLeft
  | moveRight
  | cancel
  | append (c : Char)
  deriving DecidableEq

/-- One loop iteration's result. -/
inductive AOut
  | cont (s : AState)
  | finished (a : List String)
  | cancelled
  deriving DecidableEq

/-- The cell contents after an iteration (unchanged on cancellation). -/
def aoutCells (o : AOut) (orig : List String) : List String :=
  match o with
  | .cont s => s.array
  | .finished a => a
  | .cancelled => orig

/-- The completion test `all(cell != '' for cell in array)`. -/
def allFilled (l : List String) : Bool := l.all (fun cell => !(cell == ""))

/-- State mutation performed by one non-cancel action of the `input_array`
loop body (lines 114-148). -/
def astepState (size : Nat) (v : Validator) (as_int : Bool) (st : AState) :
    AAct → Except PyExn AState
  | .confirm =>
    if st.buf ≠ "" then do
      let r ← v st.buf
      if r.1 then do
        let fv ← format_number st.buf as_int
        pure { array := st.array.set st.pos fv,
               pos := if st.pos < size - 1 then st.pos + 1 else st.pos,
               buf := "", err := "" }
      else pure { st with err := r.2 }
    else pure (if st.pos < size - 1 then { st with pos := st.pos + 1 } else st)
  | .delete =>
    pure (if st.buf ≠ "" then { st with buf := dropLastStr st.buf, err := "" } else st)
  | .moveLeft =>
    pure (if 0 < st.pos then { st with pos := st.pos - 1, buf := "", err := "" } else st)
  | .moveRight =>
    pure (if st.pos < size - 1 then { st with pos := st.pos + 1, buf := "", err := "" } else st)
  | .append c => pure { st with buf := st.buf.push c, err := "" }
  | .cancel => pure st

/-- One iteration of the `input_array` loop: Escape alone returns `None`;
every other action mutates the state and then the loop breaks as soon as
every cell is non-empty (lines 109-154). -/
def astep (size : Nat) (as_int : Bool) (v : Validator) (st : AState) (a : AAct) :
    Except PyExn AOut :=
  match a with
  | .cancel => .ok .cancelled
  | _ =>
    (astepState size v as_int st a).map
      (fun st' => if allFilled st'.array then .finished st'.array else .cont st')

/-- Run the `input_array` loop over a finite action script. -/
def runA (size : Nat) (as_int : Bool) (v : Validator) :
    List AAct → AState → Except PyExn (RunOut (List String) AState)
  | [], st => .ok (.pending st)
  | a :: rest, st =>
    match astep size as_int v st a with
    | .error e => .error e
    | .ok .cancelled => .ok .cancelled
    | .ok (.finished arr) => .ok (.finished arr)
    | .ok (.cont st') => runA size as_int v rest st'

/-- `input_array` (lines 33-154): fresh all-empty state, cursor at 0, the
default validator when none is supplied. -/
def input_array (size : Nat) (as_int : Bool) (validator : Option Validator)
    (acts : List AAct) : Except PyExn (RunOut (List String) AState) :=
  runA size as_int (validator.getD (default_validator as_int)) acts
    ⟨List.replicate size "", 0, "", ""⟩

/-- `float(val)` applied to a committed cell. -/
def convFloat (s : String) : Except PyExn PyFloat :=
  match pyFloatOfString s with
  | none => .error .valueError
  | some f => .ok f

/-- `int(float(val))` applied to a committed cell. -/
def convInt (s : String) : Except PyExn Int :=
  match pyFloatOfString s with
  | none => .error .valueError
  | some .nan => .error .valueError
  | some (.inf _) => .error .overflowError
  | some (.finite neg m ue) => .ok (truncInt neg m ue)

/-- `input_float_array` (lines 156-169): converts each cell with `float`,
returning `None` when `input_array` returned `None`. -/
def input_float_array (size : Nat) (validator : Option Validator)
    (acts : List AAct) : Except PyExn (EntryOut (List PyFloat)) :=
  match input_array size false validator acts with
  | .error e => .error e
  | .ok .cancelled => .ok .cancelled
  | .ok (.pending _) => .ok .pending
  | .ok (.finished arr) => (arr.mapM convFloat).map .value

/-- `input_int_array` (lines 171-184). -/
def input_int_array (size : Nat) (validator : Option Validator)
    (acts : List AAct) : Except PyExn (EntryOut (List Int)) :=
  match input_array size true validator acts with
  | .error e => .error e
  | .ok .cancelled => .ok .cancelled
  | .ok (.pending _) => .ok .pending
  | .ok (.finished arr) => (arr.mapM convInt).map .value

end array_input

namespace matrix_input

/-- `format_number` from `src/utility/matrix_input.py` (lines 19-34): the
symbol mode returns the text verbatim, the rest is as in the array module. -/
def format_number (value : String) (as_int as_symbol : Bool) : Except PyExn String :=
  if as_symbol then .ok value
  else
    match pyFloatOfString value with
    | none => .ok value
    | some f =>
      if as_int then
        match f with
        | .nan => .ok value
        | .inf _ => .error .overflowError
        | .finite neg m ue => .ok (pyTruncStr neg m ue)
      else .ok (stripIfDot (pyFloatRepr f))

/-- `default_validator` from `src/utility/matrix_input.py` (lines 54-66). -/
def default_validator (as_int as_symbol : Bool) (value : String) :
    Except PyExn (Bool × String) :=
  if as_symbol then
    if value.length = 1 then .ok (true, "") else .ok (false, "Введите один символ")
  else
    match pyFloatOfString value with
    | none => .ok (false, "Введите корректное число")
    | some f =>
      if as_int then
        match f with
        | .nan => .ok (false, "Введите корректное число")
        | .inf _ => .error .overflowError
        | .finite _ _ _ => .ok (true, "")
      else .ok (true, "")

/-- `matrix[i][j]` (total, with defaults; the loops only read in bounds). -/
def cellAt (m : List (List String)) (i j : Nat) : String := (m.getD i []).getD j ""

/-- `matrix[row][col] = v`. -/
def setCell (m : List (List String)) (i j : Nat) (v : String) : List (List String) :=
  m.set i ((m.getD i []).set j v)

/-- `is_matrix_complete` (lines 85-86). -/
def is_matrix_complete (m : List (List String)) : Bool :=
  m.all (fun row => row.all (fun cell => !(cell == "")))

/-- `find_next_empty` (lines 88-98): first empty cell scanning rows
`row .. rows-1`, starting at column `col+1` in row `row` and at 0 below. -/
def find_next_empty (m : List (List String)) (rows cols row col : Nat) :
    Option (Nat × Nat) :=
  (List.range' row (rows - row)).findSome? (fun i =>
    (((List.range' (if i = row then col + 1 else 0)
        (cols - (if i = row then col + 1 else 0))).find?
      (fun j => cellAt m i j == "")).map (fun j => (i, j))))

/-- `find_prev_empty` (lines 100-110): first empty cell scanning rows
`0 .. row`, with row `row` cut off at column `col` (exclusive). -/
def find_prev_empty (m : List (List String)) (row col cols : Nat) :
    Option (Nat × Nat) :=
  (List.range (row + 1)).findSome? (fun i =>
    (((List.range (if i = row then col else cols)).find?
      (fun j => cellAt m i j == "")).map (fun j => (i, j))))

/-- Mutable state of `input_matrix`: `matrix`, `current_row`, `current_col`,
`current_value`, `error_message`. -/
structure MState where
  matrix : List (List String)
  row : Nat
  col : Nat
  buf : String
  err : String
  deriving DecidableEq

/-- Editing actions recognized by the `input_matrix` loop. -/
inductive MAct
  | confirm
  | delete
  | up
  | down
  | left
  | right
  | cancel
  | append (c : Char)
  deriving DecidableEq

/-- One loop iteration's result. -/
inductive MOut
  | cont (s : MState)
  | finished (m : List (List String))
  | cancelled
  deriving DecidableEq

/-- The cell contents after an iteration (unchanged on cancellation). -/
def moutCells (o : MOut) (orig : List (List String)) : List (List String) :=
  match o with
  | .cont s => s.matrix
  | .finished m => m
  | .cancelled => orig

/-- The format re-check at the top of the Enter handler (lines 184-191):
`int(float(v))` / identity / `float(v)`; NaN-to-int raises `ValueError`,
infinity-to-int raises `OverflowError`. -/
def precheckEnter (as_int as_symbol : Bool) (v : String) : Except PyExn Unit :=
  if as_int then
    match pyFloatOfString v with
    | none => .error .valueError
    | some .nan => .error .valueError
    | some (.inf _) => .error .overflowError
    | some (.finite _ _ _) => .ok ()
  else if as_symbol then .ok ()
  else
    match pyFloatOfString v with
    | none => .error .valueError
    | some _ => .ok ()

/-- The Enter handler's `try` body (lines 183-213): re-check the format, run
the validator, and on acceptance commit the formatted value, clear the buffer
and error, and move to the next empty cell or return the matrix. -/
def enterBody (rows cols : Nat) (as_int as_symbol : Bool) (v : Validator)
    (st : MState) : Except PyExn MOut := do
  let _ ← precheckEnter as_int as_symbol st.buf
  let r ← v st.buf
  if r.1 then do
    let fv ← format_number st.buf as_int as_symbol
    let m' := setCell st.matrix st.row st.col fv
    pure (match find_next_empty m' rows cols st.row st.col with
      | some p => .cont ⟨m', p.1, p.2, "", ""⟩
      | none =>
        match find_prev_empty m' st.row st.col cols with
        | some p => .cont ⟨m', p.1, p.2, "", ""⟩
        | none => .finished m')
  else pure (.cont { st with err := r.2 })

/-- One iteration of the `input_matrix` loop (lines 152-228): Escape alone
cancels, arrows are bounds-guarded moves that clear buffer and error, Enter
with a non-empty buffer runs the guarded commit with `except ValueError`
setting the error message, and printable characters extend the buffer. -/
def mstep (rows cols : Nat) (as_int as_symbol : Bool) (v : Validator)
    (st : MState) (a : MAct) : Except PyExn MOut :=
  match a with
  | .cancel => .ok .cancelled
  | .up =>
    .ok (.cont (if 0 < st.row then { st with row := st.row - 1, buf := "", err := "" } else st))
  | .down =>
    .ok (.cont (if st.row < rows - 1 then { st with row := st.row + 1, buf := "", err := "" } else st))
  | .left =>
    .ok (.cont (if 0 < st.col then { st with col := st.col - 1, buf := "", err := "" } else st))
  | .right =>
    .ok (.cont (if st.col < cols - 1 then { st with col := st.col + 1, buf := "", err := "" } else st))
  | .confirm =>
    if st.buf = "" then .ok (.cont st)
    else
      match enterBody rows cols as_int as_symbol v st with
      | .error .valueError => .ok (.cont { st with err := "Введите корректное число" })
      | .error e => .error e
      | .ok r => .ok r
  | .delete =>
    .ok (.cont (if st.buf ≠ "" then { st with buf := dropLastStr st.buf, err := "" } else st))
  | .append c => .ok (.cont { st with buf := st.buf.push c, err := "" })

/-- Run the `input_matrix` loop over a finite action script. -/
def runM (rows cols : Nat) (as_int as_symbol : Bool) (v : Validator) :
    List MAct → MState → Except PyExn (RunOut (List (List String)) MState)
  | [], st => .ok (.pending st)
  | a :: rest, st =>
    match mstep rows cols as_int as_symbol v st a with
    | .error e => .error e
    | .ok .cancelled => .ok .cancelled
    | .ok (.finished m) => .ok (.finished m)
    | .ok (.cont st') => runM rows cols as_int as_symbol v rest st'

/-- `input_matrix` (lines 36-228): fresh all-empty grid, cursor at (0,0). -/
def input_matrix (rows cols : Nat) (as_int as_symbol : Bool)
    (validator : Option Validator) (acts : List MAct) :
    Except PyExn (RunOut (List (List String)) MState) :=
  runM rows cols as_int as_symbol (validator.getD (default_validator as_int as_symbol)) acts
    ⟨List.replicate rows (List.replicate cols ""), 0, 0, "", ""⟩

/-- `input_float_matrix` (lines 230-244): converts every cell with `float`;
note the missing cancellation check — iterating over the `None` returned on
cancel raises `TypeError`. -/
def input_float_matrix (rows cols : Nat) (validator : Option Validator)
    (acts : List MAct) : Except PyExn (EntryOut (List (List PyFloat))) :=
  match input_matrix rows cols false false validator acts with
  | .error e => .error e
  | .ok .cancelled => .error .typeError
  | .ok (.pending _) => .ok .pending
  | .ok (.finished m) => (m.mapM (fun (row : List String) => row.mapM array_input.convFloat)).map .value

/-- `input_int_matrix` (lines 246-260): same missing cancellation check. -/
def input_int_matrix (rows cols : Nat) (validator : Option Validator)
    (acts : List MAct) : Except PyExn (EntryOut (List (List Int))) :=
  match input_matrix rows cols true false validator acts with
  | .error e => .error e
  | .ok .cancelled => .error .typeError
  | .ok (.pending _) => .ok .pending
  | .ok (.finished m) => (m.mapM (fun (row : List String) => row.mapM array_input.convInt)).map .value

/-- `input_symbol_matrix` (lines 262-276): returns the matrix verbatim, so
cancellation does propagate as `None` here. -/
def input_symbol_matrix (rows cols : Nat) (validator : Option Validator)
    (acts : List MAct) : Except PyExn (EntryOut (List (List String))) :=
  match input_matrix rows cols false true validator acts with
  | .error e => .error e
  | .ok .cancelled => .ok .cancelled
  | .ok (.pending _) => .ok .pending
  | .ok (.finished m) => .ok (.value m)

end matrix_input

/-- Strict row-major order on matrix positions. -/
def rmLt (p q : Nat × Nat) : Prop := p.1 < q.1 ∨ (p.1 = q.1 ∧ p.2 < q.2)

instance (p q : Nat × Nat) : Decidable (rmLt p q) :=
  inferInstanceAs (Decidable (_ ∨ _))

/-- The matrix has exactly `rows` rows of `cols` cells each. -/
def WFShape (m : List (List String)) (rows cols : Nat) : Prop :=
  m.length = rows ∧ ∀ r ∈ m, r.length = cols

instance (m : List (List String)) (rows cols : Nat) : Decidable (WFShape m rows cols) :=
  inferInstanceAs (Decidable (_ ∧ _))

/-- The cells `find_next_empty` visits, in visit order: row-major positions
strictly after `(row, col)`. -/
def afterList (rows cols row col : Nat) : List (Nat × Nat) :=
  (List.range' row (rows - row)).flatMap (fun i =>
    (List.range' (if i = row then col + 1 else 0)
      (cols - (if i = row then col + 1 else 0))).map (fun j => (i, j)))

/-- The cells `find_prev_empty` visits, in visit order: row-major positions
strictly before `(row, col)` (row `row` cut at `col`, earlier rows cut at
`cols`). -/
def prevList (row col cols : Nat) : List (Nat × Nat) :=
  (List.range (row + 1)).flatMap (fun i =>
    (List.range (if i = row then col else cols)).map (fun j => (i, j)))

/-! ## Theorems -/

open array_input matrix_input

/-- **C1.** The matrix wrappers do not return the cancellation marker: on a
cancelled session `input_float_matrix` and `input_int_matrix` iterate over
`None` and raise `TypeError`, while the array wrappers and the symbol matrix
wrapper do propagate the marker.  This refutes the claim that every public
entry point returns the cancellation marker when the user cancels. -/
theorem c1_matrix_wrappers_crash_on_cancel :
    input_float_matrix 2 2 none [MAct.cancel] = .error .typeError ∧
    input_int_matrix 2 2 none [MAct.cancel] = .error .typeError ∧
    input_float_array 2 none [AAct.cancel] = .ok .cancelled ∧
    input_int_array 2 none [AAct.cancel] = .ok .cancelled ∧
    input_symbol_matrix 2 2 none [MAct.cancel] = .ok .cancelled := by
  decide

/-- **C5.** Validation failure is not always non-fatal: confirming the
buffer `"inf"` in integer mode makes `int(float("inf"))` raise an uncaught
`OverflowError` in both editors (only `ValueError` is caught), aborting the
session, even though `"inf"` parses as a real number. -/
theorem c5_int_mode_inf_confirm_fatal :
    mstep 2 2 true false (matrix_input.default_validator true false)
      ⟨[["", ""], ["", ""]], 0, 0, "inf", ""⟩ .confirm = .error .overflowError ∧
    astep 2 true (array_input.default_validator true)
      ⟨["", ""], 0, "inf", ""⟩ .confirm = .error .overflowError ∧
    (pyFloatOfString "inf").isSome = true := by
  decide

set_option maxRecDepth 40000 in
/-- **C7.** Real-number formatting is not idempotent: `format_number`
renders `1.5e20` as Python does (`"1.5e+20"`) and then `rstrip('0')` corrupts
it to `"1.5e+2"` (the number 150); formatting that output again yields
`"150"`, a different string, so `format(format(x)) ≠ format(x)` at
`x = "1.5e20"`. -/
theorem c7_real_format_not_idempotent :
    matrix_input.format_number "1.5e20" false false = .ok "1.5e+2" ∧
    matrix_input.format_number "1.5e+2" false false = .ok "150" ∧
    array_input.format_number "1.5e20" false = .ok "1.5e+2" ∧
    array_input.format_number "1.5e+2" false = .ok "150" ∧
    ("150" : String) ≠ "1.5e+2" := by
  decide

/-- **C8 counterexample.** In integer mode the default validator's verdict is
not determined by real-number parseability and it can raise: `"nan"` parses
as a real number yet is rejected, and `"inf"` parses yet raises
`OverflowError`. -/
theorem c8_default_validator_nan_inf_cx :
    array_input.default_validator true "nan" = .ok (false, "Введите корректное число") ∧
    (pyFloatOfString "nan").isSome = true ∧
    array_input.default_validator true "inf" = .error .overflowError ∧
    matrix_input.default_validator true false "nan"
      = .ok (false, "Введите корректное число") := by
  decide

/-- **C2 counterexample.** The array editor applies no base-kind parse before
the custom validator: with an accept-everything custom validator, confirming
the unparseable buffer `"abc"` is not rejected by the engine — the raw text
is committed verbatim and the cursor advances. -/
theorem c2_array_commits_unparsed_text :
    astep 2 false (fun _ => .ok (true, "")) ⟨["", ""], 0, "abc", ""⟩ .confirm
      = .ok (.cont ⟨["abc", ""], 1, "", ""⟩) ∧
    pyFloatOfString "abc" = none := by
  decide

/-- **C3 counterexample.** In the matrix editor, confirming with an empty
buffer does not advance the cursor: on an entirely empty (hence incomplete)
2×2 grid the state is returned unchanged. -/
theorem c3_matrix_empty_confirm_noop_cx :
    mstep 2 2 false false (matrix_input.default_validator false false)
      ⟨[["", ""], ["", ""]], 0, 0, "", ""⟩ .confirm
      = .ok (.cont ⟨[["", ""], ["", ""]], 0, 0, "", ""⟩) ∧
    is_matrix_complete [["", ""], ["", ""]] = false := by
  decide

/-- **C6 counterexample.** A clamped move does not clear the buffer or the
error: moving left at index 0 in the array editor (and up at row 0 in the
matrix editor) leaves buffer `"5"` and error `"E"` untouched. -/
theorem c6_clamped_move_keeps_buffer_cx :
    astep 3 false (array_input.default_validator false)
      ⟨["", "", ""], 0, "5", "E"⟩ .moveLeft
      = .ok (.cont ⟨["", "", ""], 0, "5", "E"⟩) ∧
    mstep 2 2 false false (matrix_input.default_validator false false)
      ⟨[["", ""], ["", ""]], 0, 0, "5", "E"⟩ .up
      = .ok (.cont ⟨[["", ""], ["", ""]], 0, 0, "5", "E"⟩) := by
  decide

theorem except_bind_ok {ε α β : Type} (a : α) (f : α → Except ε β) :
    (Except.ok a >>= f) = f a := rfl

theorem except_bind_error {ε α β : Type} (e : ε) (f : α → Except ε β) :
    ((Except.error e : Except ε α) >>= f) = .error e := rfl

theorem except_map_ok {ε α β : Type} (a : α) (f : α → β) :
    (Except.ok a : Except ε α).map f = .ok (f a) := rfl

theorem except_map_error {ε α β : Type} (e : ε) (f : α → β) :
    (Except.error e : Except ε α).map f = .error e := rfl

theorem except_pure {ε α : Type} (a : α) : (pure a : Except ε α) = .ok a := rfl

/-- **C8 amended.** The two modules' default validators agree (in non-symbol
mode); in real mode acceptance is exactly real-number parseability with the
fixed rejection message; in integer mode acceptance is exactly parsing to a
finite float, NaN-parsing text is rejected with the same message, and
infinity-parsing text raises `OverflowError`. -/
theorem c8_default_validator_characterization (b : Bool) (v : String) :
    array_input.default_validator b v = matrix_input.default_validator b false v ∧
    (array_input.default_validator false v
      = if (pyFloatOfString v).isSome then .ok (true, "")
        else .ok (false, "Введите корректное число")) ∧
    (array_input.default_validator true v = .ok (true, "")
      ↔ ∃ neg m ue, pyFloatOfString v = some (.finite neg m ue)) ∧
    (array_input.default_validator true v = .error .overflowError
      ↔ ∃ neg, pyFloatOfString v = some (.inf neg)) ∧
    (array_input.default_validator true v = .ok (false, "Введите корректное число")
      ↔ pyFloatOfString v = none ∨ pyFloatOfString v = some .nan) := by
  refine ⟨rfl, ?_, ?_, ?_, ?_⟩ <;>
    · cases h : pyFloatOfString v with
      | none => simp [array_input.default_validator, h]
      | some f =>
        cases f <;> simp [array_input.default_validator, h]

/-- **C2 amended.** In the matrix editor (integer/real modes) the Enter
handler re-parses the buffer as the base kind before consulting the
validator: the step's outcome depends on the validator only through its
values on texts that pass the base-kind pre-check, so two validators that
agree there are indistinguishable.  (In the array editor there is no such
precondition; see the counterexample.) -/
theorem c2_matrix_validator_precondition (rows cols : Nat) (aI : Bool)
    (v1 v2 : Validator) (st : MState)
    (h : ∀ t, precheckEnter aI false t = .ok () → v1 t = v2 t) :
    mstep rows cols aI false v1 st .confirm = mstep rows cols aI false v2 st .confirm := by
  unfold mstep
  by_cases hb : st.buf = ""
  · simp [hb]
  · have hbody : enterBody rows cols aI false v1 st = enterBody rows cols aI false v2 st := by
      unfold enterBody
      cases hp : precheckEnter aI false st.buf with
      | error e => simp [hp, except_bind_error]
      | ok u =>
        cases u
        simp only [hp, except_bind_ok]
        rw [h st.buf hp]
    simp [hb, hbody]

theorem c2_matrix_validator_precondition_witness :
    mstep 2 2 true false (fun _ => .ok (true, ""))
      ⟨[["", ""], ["", ""]], 0, 0, "abc", ""⟩ .confirm
      = mstep 2 2 true false
        (fun t => if pyFloatOfString t = none then .ok (false, "nope") else .ok (true, ""))
        ⟨[["", ""], ["", ""]], 0, 0, "abc", ""⟩ .confirm := by
  refine c2_matrix_validator_precondition 2 2 true _ _ _ (fun t ht => ?_)
  cases hp : pyFloatOfString t with
  | none =>
    exfalso
    simp only [precheckEnter, if_pos rfl, hp] at ht
    exact Except.noConfusion ht
  | some f => simp [hp]

/-- **C3 amended.** Confirming with an empty buffer performs no commit and no
validation and never touches cells, buffer, or error: in the array editor the
cursor advances by one exactly when it is not at the last index (after which
the loop's completion check still runs), while in the matrix editor the
empty-buffer confirm is a complete no-op — the cursor does not move. -/
theorem c3_empty_confirm_behavior :
    (∀ (size : Nat) (aI : Bool) (v : Validator) (st : AState), st.buf = "" →
      astep size aI v st .confirm
        = .ok (if allFilled st.array then .finished st.array
               else .cont (if st.pos < size - 1 then { st with pos := st.pos + 1 } else st))) ∧
    (∀ (rows cols : Nat) (aI aS : Bool) (v : Validator) (st : MState), st.buf = "" →
      mstep rows cols aI aS v st .confirm = .ok (.cont st)) := by
  constructor
  · intro size aI v st hb
    unfold astep astepState
    by_cases hp : st.pos < size - 1 <;> simp [hb, hp, except_pure, Except.map]
  · intro rows cols aI aS v st hb
    simp [mstep, hb]

theorem c3_empty_confirm_behavior_witness :
    astep 3 false (array_input.default_validator false)
      ⟨["", "", ""], 0, "", ""⟩ .confirm = .ok (.cont ⟨["", "", ""], 1, "", ""⟩) ∧
    mstep 2 2 false false (matrix_input.default_validator false false)
      ⟨[["", ""], ["", ""]], 1, 1, "", ""⟩ .confirm
      = .ok (.cont ⟨[["", ""], ["", ""]], 1, 1, "", ""⟩) := by
  constructor
  · have h := c3_empty_confirm_behavior.1 3 false (array_input.default_validator false)
      ⟨["", "", ""], 0, "", ""⟩ rfl
    rw [h]; decide
  · exact c3_empty_confirm_behavior.2 2 2 false false _ ⟨[["", ""], ["", ""]], 1, 1, "", ""⟩ rfl

/-- **C6 amended.** A Move clears the buffer and the error and shifts the
cursor by one exactly when the move stays inside the grid; a Move at an edge
is a complete no-op — cursor, buffer, and error are all left untouched. -/
theorem c6_move_clears_iff_moves :
    (∀ (size : Nat) (aI : Bool) (v : Validator) (st : AState),
      allFilled st.array = false →
      astep size aI v st .moveLeft
        = .ok (.cont (if 0 < st.pos then ⟨st.array, st.pos - 1, "", ""⟩ else st)) ∧
      astep size aI v st .moveRight
        = .ok (.cont (if st.pos < size - 1 then ⟨st.array, st.pos + 1, "", ""⟩ else st))) ∧
    (∀ (rows cols : Nat) (aI aS : Bool) (v : Validator) (st : MState),
      mstep rows cols aI aS v st .up
        = .ok (.cont (if 0 < st.row then ⟨st.matrix, st.row - 1, st.col, "", ""⟩ else st)) ∧
      mstep rows cols aI aS v st .down
        = .ok (.cont (if st.row < rows - 1 then ⟨st.matrix, st.row + 1, st.col, "", ""⟩ else st)) ∧
      mstep rows cols aI aS v st .left
        = .ok (.cont (if 0 < st.col then ⟨st.matrix, st.row, st.col - 1, "", ""⟩ else st)) ∧
      mstep rows cols aI aS v st .right
        = .ok (.cont (if st.col < cols - 1 then ⟨st.matrix, st.row, st.col + 1, "", ""⟩ else st))) := by
  constructor
  · intro size aI v st hc
    constructor
    · unfold astep astepState
      by_cases hp : 0 < st.pos <;> simp [hp, hc, except_pure, Except.map]
    · unfold astep astepState
      by_cases hp : st.pos < size - 1 <;> simp [hp, hc, except_pure, Except.map]
  · intro rows cols aI aS v st
    refine ⟨?_, ?_, ?_, ?_⟩ <;> simp [mstep]

theorem mem_dropWhile_of_not {α : Type} {p : α → Bool} {a : α} :
    ∀ {l : List α}, a ∈ l → p a = false → a ∈ l.dropWhile p := by
  intro l ha hp
  induction l with
  | nil => cases ha
  | cons b t ih =>
    rw [List.dropWhile_cons]
    by_cases hb : p b = true
    · simp only [hb, if_true]
      rcases List.mem_cons.mp ha with h | h
      · subst h; rw [hp] at hb; cases hb
      · exact ih h
    · simp only [Bool.not_eq_true] at hb
      simp only [hb, Bool.false_eq_true, if_false]
      exact ha

theorem mem_rstripChar {c a : Char} {l : List Char} (ha : a ∈ l) (hne : a ≠ c) :
    a ∈ rstripChar c l := by
  unfold rstripChar
  rw [List.mem_reverse]
  exact mem_dropWhile_of_not (List.mem_reverse.mpr ha) (by simp [hne])

/-- If a string contains a character other than `'0'` and `'.'`, the
`rstrip('0').rstrip('.')` cleanup cannot empty it. -/
theorem stripIfDot_ne_empty_of_mem {s : String} {a : Char} (ha : a ∈ s.data)
    (h0 : a ≠ '0') (hd : a ≠ '.') : stripIfDot s ≠ "" := by
  unfold stripIfDot
  split
  · intro h
    have hmem : a ∈ rstripChar '.' (rstripChar '0' s.data) :=
      mem_rstripChar (mem_rstripChar ha h0) hd
    have : rstripChar '.' (rstripChar '0' s.data) = [] := congrArg String.data h
    rw [this] at hmem
    cases hmem
  · intro h
    have : s.data = [] := congrArg String.data h
    rw [this] at ha
    cases ha

theorem mem_last_dropWhile {p : Char → Bool} :
    ∀ (l : List Char) (a : Char), (l ++ [a]).dropWhile p ≠ [] → a ∈ (l ++ [a]).dropWhile p := by
  intro l
  induction l with
  | nil =>
    intro a h
    rw [List.nil_append, List.dropWhile_cons] at h ⊢
    by_cases hp : p a = true
    · simp [hp] at h
    · simp only [Bool.not_eq_true] at hp
      simp [hp]
  | cons b t ih =>
    intro a h
    rw [List.cons_append, List.dropWhile_cons] at h ⊢
    by_cases hp : p b = true
    · simp only [hp, if_true] at h ⊢
      exact ih a h
    · simp only [Bool.not_eq_true] at hp
      simp only [hp, Bool.false_eq_true, if_false]
      exact List.mem_cons_of_mem _ (List.mem_append_right _ (List.mem_singleton.mpr rfl))

/-- A string starting with `'0'` and containing a dot also survives the
cleanup: the stripping stops at the dot, keeping the leading zero. -/
theorem stripIfDot_ne_empty_of_zero_dot {s : String} {t : List Char}
    (hs : s.data = '0' :: t) (hd : '.' ∈ s.data) : stripIfDot s ≠ "" := by
  unfold stripIfDot
  split
  · intro h
    have hrev : s.data.reverse = t.reverse ++ ['0'] := by rw [hs]; simp
    have hw : ('.' : Char) ∈ s.data.reverse.dropWhile (fun d => d == '0') :=
      mem_dropWhile_of_not (List.mem_reverse.mpr hd) (by decide)
    have hwne : s.data.reverse.dropWhile (fun d => d == '0') ≠ [] :=
      List.ne_nil_of_mem hw
    have h0w : ('0' : Char) ∈ s.data.reverse.dropWhile (fun d => d == '0') := by
      rw [hrev] at hwne ⊢
      exact mem_last_dropWhile _ _ hwne
    have hfinal : ('0' : Char) ∈ rstripChar '.' (rstripChar '0' s.data) := by
      apply mem_rstripChar _ (by decide)
      unfold rstripChar
      rw [List.mem_reverse]
      exact h0w
    have hnil : rstripChar '.' (rstripChar '0' s.data) = [] := congrArg String.data h
    rw [hnil] at hfinal
    cases hfinal
  · intro h
    have : s.data = [] := congrArg String.data h
    rw [this] at hs
    cases hs

theorem natDigitsAux_ne_nil : ∀ (f n : Nat), natDigitsAux f n ≠ [] := by
  intro f n
  cases f with
  | zero => simp [natDigitsAux]
  | succ f =>
    unfold natDigitsAux
    split
    · simp
    · simp

theorem natDigitsCh_ne_nil (n : Nat) : natDigitsCh n ≠ [] := natDigitsAux_ne_nil n n

theorem natDigitsAux_mem : ∀ (f n : Nat) (c : Char), c ∈ natDigitsAux f n →
    ∃ k, k < 10 ∧ c = digitChar10 k := by
  intro f
  induction f with
  | zero =>
    intro n c hc
    simp only [natDigitsAux, List.mem_singleton] at hc
    exact ⟨n % 10, Nat.mod_lt _ (by omega), hc⟩
  | succ f ih =>
    intro n c hc
    unfold natDigitsAux at hc
    split at hc
    · rw [List.mem_singleton] at hc
      exact ⟨n, by omega, hc⟩
    · rcases List.mem_append.mp hc with h | h
      · exact ih _ _ h
      · rw [List.mem_singleton] at h
        exact ⟨n % 10, Nat.mod_lt _ (by omega), h⟩

theorem digitChar10_ne_dot {k : Nat} (hk : k < 10) : digitChar10 k ≠ '.' := by
  interval_cases k <;> decide

theorem digitChar10_ne_zero {k : Nat} (hk : k < 10) (h0 : k ≠ 0) : digitChar10 k ≠ '0' := by
  interval_cases k <;> simp_all <;> decide

/-- Head form of the leading-zero case: a string whose first character is
`'0'` and that contains a dot survives the cleanup. -/
theorem stripIfDot_ne_empty_of_head_zero {s : String} (hh : s.data.head? = some '0')
    (hd : '.' ∈ s.data) : stripIfDot s ≠ "" := by
  cases hdata : s.data with
  | nil => rw [hdata] at hh; cases hh
  | cons a t =>
    rw [hdata] at hh
    have ha : a = '0' := by
      have := Option.some.inj hh
      exact this
    exact stripIfDot_ne_empty_of_zero_dot (hdata.trans (by rw [ha])) hd

theorem head_mem_take {α : Type} {n : Nat} (hn : 0 < n) (a : α) (l : List α) :
    a ∈ List.take n (a :: l) := by
  cases n with
  | zero => omega
  | succ n => rw [List.take_succ_cons]; exact List.mem_cons_self _ _

theorem head?_take {α : Type} {n : Nat} (hn : 0 < n) (a : α) (l : List α) :
    (List.take n (a :: l)).head? = some a := by
  cases n with
  | zero => omega
  | succ n => rw [List.take_succ_cons]; rfl

/-- Every decimal rendering survives the `rstrip` cleanup: fixed notation
keeps at least its leading integer digit (stripping stops at the dot) and
scientific notation keeps its `'e'`. -/
theorem renderDec_stripIfDot_ne_empty (m10 : Nat) (k : Int) :
    stripIfDot ⟨renderDec m10 k⟩ ≠ "" := by
  obtain ⟨d, ds', hds⟩ : ∃ d ds', natDigitsCh m10 = d :: ds' := by
    cases h : natDigitsCh m10 with
    | nil => exact absurd h (natDigitsCh_ne_nil m10)
    | cons a l => exact ⟨a, l, rfl⟩
  obtain ⟨k0, hk0, hd⟩ := natDigitsAux_mem m10 m10 d
    (by rw [show natDigitsAux m10 m10 = natDigitsCh m10 from rfl, hds]; exact List.mem_cons_self _ _)
  simp only [renderDec, hds]
  split
  · split
    · -- fixed, integral: ds ++ zeros ++ ".0"
      by_cases hz : k0 = 0
      · have hd0 : d = '0' := by rw [hd, hz]; decide
        subst hd0
        exact stripIfDot_ne_empty_of_head_zero rfl (by simp)
      · exact stripIfDot_ne_empty_of_mem
          (List.mem_append_left _ (List.mem_append_left _ (List.mem_cons_self d ds')))
          (hd ▸ digitChar10_ne_zero hk0 hz) (hd ▸ digitChar10_ne_dot hk0)
    · split
      · -- fixed, fractional with nonzero integer part: take/dot/drop
        rename_i hkneg he0
        have ht : 0 < ((k + ((d :: ds').length : Int) - 1) + 1).toNat := by omega
        by_cases hz : k0 = 0
        · have hd0 : d = '0' := by rw [hd, hz]; decide
          subst hd0
          refine stripIfDot_ne_empty_of_head_zero ?_ (by simp)
          show (((List.take _ _ ++ ['.']) ++ List.drop _ _).head?) = some '0'
          rw [List.head?_append, List.head?_append, head?_take ht]
          rfl
        · refine stripIfDot_ne_empty_of_mem
            (List.mem_append_left _ (List.mem_append_left _ (head_mem_take ht d ds')))
            (hd ▸ digitChar10_ne_zero hk0 hz) (hd ▸ digitChar10_ne_dot hk0)
      · -- fixed, pure fraction: "0." then zeros then digits
        exact stripIfDot_ne_empty_of_head_zero rfl (by simp)
  · -- scientific: the marker 'e' is present and is neither '0' nor '.'
    refine stripIfDot_ne_empty_of_mem (a := 'e') ?_ (by decide) (by decide)
    simp

theorem reprPosMag_stripIfDot_ne_empty (m : Nat) (ue : Int) :
    stripIfDot ⟨reprPosMag m ue⟩ ≠ "" := by
  simp only [reprPosMag]
  exact renderDec_stripIfDot_ne_empty _ _

theorem pyTruncStr_ne_empty (neg : Bool) (m : Nat) (ue : Int) :
    pyTruncStr neg m ue ≠ "" := by
  intro hcontra
  simp only [pyTruncStr] at hcontra
  split at hcontra <;> split at hcontra
  all_goals
    first
    | exact absurd hcontra (by decide)
    | · have hdata := congrArg String.data hcontra
        rcases List.append_eq_nil.mp hdata with ⟨-, hnil⟩
        exact natDigitsCh_ne_nil _ hnil

/-- The committed value is never the empty string: `format_number` maps any
non-empty raw text to non-empty canonical text (in every mode). -/
theorem format_number_ok_ne_empty {value s : String} {aI aS : Bool}
    (hv : value ≠ "") (h : matrix_input.format_number value aI aS = .ok s) : s ≠ "" := by
  unfold matrix_input.format_number at h
  split at h
  · cases h; exact hv
  · split at h
    · cases h; exact hv
    · rename_i f hf
      split at h
      · cases f with
        | nan => cases h; exact hv
        | inf neg => cases h
        | finite neg m ue => cases h; exact pyTruncStr_ne_empty neg m ue
      · cases h
        cases f with
        | nan => decide
        | inf neg => cases neg <;> decide
        | finite neg m ue =>
          simp only [pyFloatRepr]
          split
          · cases neg <;> decide
          · cases neg with
            | false =>
              rw [show ((if (false : Bool) = true then ['-'] else []) : List Char) = [] from rfl,
                List.nil_append]
              exact reprPosMag_stripIfDot_ne_empty m ue
            | true =>
              rw [show ((if (true : Bool) = true then ['-'] else []) : List Char) = ['-'] from rfl]
              exact stripIfDot_ne_empty_of_mem
                (List.mem_append_left _ (List.mem_singleton.mpr rfl))
                (by decide) (by decide)

/-- The array module's formatter agrees with the matrix module's in
non-symbol mode. -/
theorem array_format_number_eq (value : String) (aI : Bool) :
    array_input.format_number value aI = matrix_input.format_number value aI false := rfl

theorem findSome?_eq_find?_flatMap (L : List Nat) (f : Nat → List Nat) (p : Nat → Nat → Bool) :
    (L.findSome? fun i => ((f i).find? (p i)).map (fun j => (i, j)))
      = (L.flatMap fun i => (f i).map (fun j => (i, j))).find? (fun q => p q.1 q.2) := by
  induction L with
  | nil => rfl
  | cons a L ih =>
    rw [List.findSome?_cons, List.flatMap_cons, List.find?_append, List.find?_map]
    have hcomp : ((fun q : Nat × Nat => p q.1 q.2) ∘ fun j => (a, j)) = p a := rfl
    rw [hcomp]
    cases hfa : (f a).find? (p a) with
    | none => simpa using ih
    | some j => simp

theorem find_next_empty_eq_find? (m : List (List String)) (rows cols row col : Nat) :
    find_next_empty m rows cols row col
      = (afterList rows cols row col).find? (fun q => cellAt m q.1 q.2 == "") := by
  unfold find_next_empty afterList
  exact findSome?_eq_find?_flatMap _ _ _

theorem find_prev_empty_eq_find? (m : List (List String)) (row col cols : Nat) :
    find_prev_empty m row col cols
      = (prevList row col cols).find? (fun q => cellAt m q.1 q.2 == "") := by
  unfold find_prev_empty prevList
  exact findSome?_eq_find?_flatMap _ _ _

theorem mem_afterList {rows cols row col : Nat} {q : Nat × Nat} :
    q ∈ afterList rows cols row col ↔ q.1 < rows ∧ q.2 < cols ∧ rmLt (row, col) q := by
  obtain ⟨qi, qj⟩ := q
  simp only [afterList, List.mem_flatMap, List.mem_map, List.mem_range'_1, Prod.mk.injEq, rmLt]
  constructor
  · rintro ⟨i, hi, j, hj, rfl, rfl⟩
    by_cases hir : i = row
    · subst hir
      rw [if_pos rfl] at hj
      exact ⟨by omega, by omega, Or.inr ⟨rfl, by omega⟩⟩
    · rw [if_neg hir] at hj
      exact ⟨by omega, by omega, Or.inl (by omega)⟩
  · rintro ⟨h1, h2, h3⟩
    rcases h3 with h3 | ⟨heq, h3⟩
    · refine ⟨qi, ⟨by omega, by omega⟩, qj, ?_, rfl, rfl⟩
      rw [if_neg (by omega)]
      omega
    · refine ⟨qi, ⟨by omega, by omega⟩, qj, ?_, rfl, rfl⟩
      rw [if_pos (by omega)]
      omega

theorem mem_prevList {row col cols : Nat} {q : Nat × Nat} :
    q ∈ prevList row col cols ↔ (q.1 < row ∧ q.2 < cols) ∨ (q.1 = row ∧ q.2 < col) := by
  obtain ⟨qi, qj⟩ := q
  simp only [prevList, List.mem_flatMap, List.mem_map, List.mem_range, Prod.mk.injEq]
  constructor
  · rintro ⟨i, hi, j, hj, rfl, rfl⟩
    by_cases hir : i = row
    · subst hir
      rw [if_pos rfl] at hj
      exact Or.inr ⟨rfl, hj⟩
    · rw [if_neg hir] at hj
      exact Or.inl ⟨by omega, hj⟩
  · rintro (⟨h1, h2⟩ | ⟨rfl, h2⟩)
    · refine ⟨qi, by omega, qj, ?_, rfl, rfl⟩
      rw [if_neg (by omega)]
      exact h2
    · refine ⟨qi, by omega, qj, ?_, rfl, rfl⟩
      rw [if_pos rfl]
      exact h2

theorem pairwise_flatMap_rowMajor (L : List Nat) (f : Nat → List Nat)
    (hL : L.Pairwise (· < ·)) (hf : ∀ i, (f i).Pairwise (· < ·)) :
    (L.flatMap fun i => (f i).map (fun j => (i, j))).Pairwise rmLt := by
  induction L with
  | nil => simp
  | cons a L ih =>
    rw [List.flatMap_cons, List.pairwise_append]
    rcases List.pairwise_cons.mp hL with ⟨ha, hL'⟩
    refine ⟨List.Pairwise.map _ (fun x y hxy => Or.inr ⟨rfl, hxy⟩) (hf a), ih hL', ?_⟩
    rintro x hx y hy
    rcases List.mem_map.mp hx with ⟨j, hj, rfl⟩
    rcases List.mem_flatMap.mp hy with ⟨b, hb, hyb⟩
    rcases List.mem_map.mp hyb with ⟨j', hj', rfl⟩
    exact Or.inl (ha b hb)

theorem pairwise_afterList (rows cols row col : Nat) :
    (afterList rows cols row col).Pairwise rmLt :=
  pairwise_flatMap_rowMajor _ _ (List.pairwise_lt_range' _ _)
    (fun _ => List.pairwise_lt_range' _ _)

theorem pairwise_prevList (row col cols : Nat) :
    (prevList row col cols).Pairwise rmLt :=
  pairwise_flatMap_rowMajor _ _ (List.pairwise_lt_range _)
    (fun _ => List.pairwise_lt_range _)

theorem find?_split {α : Type} {p : α → Bool} {a : α} :
    ∀ {l : List α}, l.find? p = some a →
      ∃ l1 l2, l = l1 ++ a :: l2 ∧ ∀ b ∈ l1, p b = false := by
  intro l h
  induction l with
  | nil => cases h
  | cons x t ih =>
    rw [List.find?_cons] at h
    cases hx : p x with
    | true =>
      simp only [hx] at h
      cases h
      exact ⟨[], t, rfl, by simp⟩
    | false =>
      simp only [hx] at h
      rcases ih h with ⟨l1, l2, rfl, hl1⟩
      refine ⟨x :: l1, l2, rfl, ?_⟩
      intro b hb
      rcases List.mem_cons.mp hb with rfl | hb
      · exact hx
      · exact hl1 b hb

theorem find?_min {α : Type} {R : α → α → Prop} {p : α → Bool} {a : α} {l : List α}
    (hpw : l.Pairwise R) (h : l.find? p = some a) :
    ∀ b ∈ l, p b = true → b = a ∨ R a b := by
  rcases find?_split h with ⟨l1, l2, rfl, hl1⟩
  intro b hb hpb
  rcases List.mem_append.mp hb with hb1 | hb2
  · rw [hl1 b hb1] at hpb
    cases hpb
  · rcases List.mem_cons.mp hb2 with rfl | hb2
    · exact Or.inl rfl
    · rcases List.pairwise_append.mp hpw with ⟨-, hpw2, -⟩
      exact Or.inr ((List.pairwise_cons.mp hpw2).1 b hb2)

theorem find_next_empty_none_iff (m : List (List String)) (rows cols row col : Nat) :
    find_next_empty m rows cols row col = none ↔
      ∀ q : Nat × Nat, q.1 < rows → q.2 < cols → rmLt (row, col) q → cellAt m q.1 q.2 ≠ "" := by
  rw [find_next_empty_eq_find?, List.find?_eq_none]
  constructor
  · intro h q h1 h2 h3
    have := h q (mem_afterList.mpr ⟨h1, h2, h3⟩)
    simpa using this
  · intro h x hx
    rcases mem_afterList.mp hx with ⟨h1, h2, h3⟩
    simp [h x h1 h2 h3]

theorem find_next_empty_some {m : List (List String)} {rows cols row col : Nat} {p : Nat × Nat}
    (h : find_next_empty m rows cols row col = some p) :
    p.1 < rows ∧ p.2 < cols ∧ rmLt (row, col) p ∧ cellAt m p.1 p.2 = "" ∧
      ∀ q : Nat × Nat, q.1 < rows → q.2 < cols → rmLt (row, col) q →
        cellAt m q.1 q.2 = "" → q = p ∨ rmLt p q := by
  rw [find_next_empty_eq_find?] at h
  have hmem := List.mem_of_find?_eq_some h
  rcases mem_afterList.mp hmem with ⟨h1, h2, h3⟩
  have hcell := List.find?_some h
  refine ⟨h1, h2, h3, by simpa using hcell, ?_⟩
  intro q hq1 hq2 hq3 hcellq
  exact find?_min (pairwise_afterList rows cols row col) h q
    (mem_afterList.mpr ⟨hq1, hq2, hq3⟩) (by simp [hcellq])

theorem find_prev_empty_none_iff (m : List (List String)) (row col cols : Nat) :
    find_prev_empty m row col cols = none ↔
      ∀ q : Nat × Nat, (q.1 < row ∧ q.2 < cols) ∨ (q.1 = row ∧ q.2 < col) →
        cellAt m q.1 q.2 ≠ "" := by
  rw [find_prev_empty_eq_find?, List.find?_eq_none]
  constructor
  · intro h q hq
    have := h q (mem_prevList.mpr hq)
    simpa using this
  · intro h x hx
    simp [h x (mem_prevList.mp hx)]

theorem find_prev_empty_some {m : List (List String)} {row col cols : Nat} {p : Nat × Nat}
    (h : find_prev_empty m row col cols = some p) :
    ((p.1 < row ∧ p.2 < cols) ∨ (p.1 = row ∧ p.2 < col)) ∧ cellAt m p.1 p.2 = "" ∧
      ∀ q : Nat × Nat, (q.1 < row ∧ q.2 < cols) ∨ (q.1 = row ∧ q.2 < col) →
        cellAt m q.1 q.2 = "" → q = p ∨ rmLt p q := by
  rw [find_prev_empty_eq_find?] at h
  have hmem := List.mem_of_find?_eq_some h
  have hcell := List.find?_some h
  refine ⟨mem_prevList.mp hmem, by simpa using hcell, ?_⟩
  intro q hq hcellq
  exact find?_min (pairwise_prevList row col cols) h q (mem_prevList.mpr hq) (by simp [hcellq])

theorem cellAt_eq_getElem {m : List (List String)} {i j : Nat} (hi : i < m.length)
    (hj : j < m[i].length) : cellAt m i j = m[i][j] := by
  unfold cellAt
  have h1 : m.getD i [] = m[i] := by
    rw [List.getD_eq_getElem?_getD, List.getElem?_eq_getElem hi]
    rfl
  rw [h1, List.getD_eq_getElem?_getD, List.getElem?_eq_getElem hj]
  rfl

theorem WFShape_row_len {m : List (List String)} {rows cols r : Nat}
    (h : WFShape m rows cols) (hr : r < rows) : (m.getD r []).length = cols := by
  obtain ⟨hlen, hrow⟩ := h
  have hr' : r < m.length := by omega
  rw [List.getD_eq_getElem?_getD, List.getElem?_eq_getElem hr']
  exact hrow _ (List.getElem_mem _)

theorem is_matrix_complete_iff {m : List (List String)} {rows cols : Nat}
    (h : WFShape m rows cols) :
    is_matrix_complete m = true ↔ ∀ i j, i < rows → j < cols → cellAt m i j ≠ "" := by
  obtain ⟨hlen, hrow⟩ := h
  unfold is_matrix_complete
  rw [List.all_eq_true]
  constructor
  · intro hall i j hi hj
    have hi' : i < m.length := by omega
    have hmem : m[i] ∈ m := List.getElem_mem _
    have hj' : j < m[i].length := by rw [hrow m[i] hmem]; exact hj
    have hrowall := (List.all_eq_true.mp (hall m[i] hmem)) m[i][j] (List.getElem_mem _)
    rw [cellAt_eq_getElem hi' hj']
    simpa using hrowall
  · intro hcell row hmem
    rw [List.all_eq_true]
    intro cell hcmem
    rcases List.mem_iff_getElem.mp hmem with ⟨i, hi, rfl⟩
    rcases List.mem_iff_getElem.mp hcmem with ⟨j, hj, rfl⟩
    have hic : i < rows := by omega
    have hjc : j < cols := by
      have := hrow m[i] (List.getElem_mem _)
      omega
    have := hcell i j hic hjc
    rw [cellAt_eq_getElem hi hj] at this
    simpa using this

theorem getD_set_cases {α : Type} (l : List α) (p i : Nat) (v d : α) :
    (l.set p v).getD i d = l.getD i d ∨
      ((l.set p v).getD i d = v ∧ i = p ∧ p < l.length) := by
  rw [List.getD_eq_getElem?_getD, List.getD_eq_getElem?_getD, List.getElem?_set]
  by_cases hip : p = i
  · subst hip
    by_cases hlen : p < l.length
    · right
      simp [hlen]
    · left
      simp [hlen, List.getElem?_eq_none (by omega : l.length ≤ p)]
  · left
    simp [hip]

theorem cellAt_setCell_cases (m : List (List String)) (r c i j : Nat) (v : String) :
    cellAt (setCell m r c v) i j = cellAt m i j ∨ cellAt (setCell m r c v) i j = v := by
  unfold cellAt setCell
  rcases getD_set_cases m r i ((m.getD r []).set c v) ([] : List String) with h | ⟨h, rfl, hlen⟩
  · left
    rw [h]
  · rw [h]
    rcases getD_set_cases (m.getD i []) c j v "" with h2 | ⟨h2, rfl, hl2⟩
    · left
      rw [h2]
    · right
      rw [h2]

theorem cellAt_setCell_self {m : List (List String)} {r c : Nat} {v : String}
    (hr : r < m.length) (hc : c < (m.getD r []).length) :
    cellAt (setCell m r c v) r c = v := by
  unfold cellAt setCell
  have h1 : (m.set r ((m.getD r []).set c v)).getD r [] = (m.getD r []).set c v := by
    rw [List.getD_eq_getElem?_getD, List.getElem?_set]
    simp [hr]
  rw [h1]
  have h2 : ((m.getD r []).set c v).getD c "" = v := by
    generalize m.getD r [] = R at hc ⊢
    rw [List.getD_eq_getElem?_getD, List.getElem?_set]
    simp [hc]
  rw [h2]

theorem cellAt_setCell_of_ne {m : List (List String)} {r c i j : Nat} {v : String}
    (hne : (i, j) ≠ (r, c)) : cellAt (setCell m r c v) i j = cellAt m i j := by
  unfold cellAt setCell
  by_cases hir : r = i
  · subst hir
    have hjc : c ≠ j := by
      intro hh
      subst hh
      exact hne rfl
    rcases getD_set_cases m r r ((m.getD r []).set c v) ([] : List String) with h | ⟨h, -, -⟩
    · rw [h]
    · rw [h]
      generalize m.getD r [] = R
      rw [List.getD_eq_getElem?_getD, List.getElem?_set_ne hjc, ← List.getD_eq_getElem?_getD]
  · have h1 : (m.set r ((m.getD r []).set c v)).getD i [] = m.getD i [] := by
      rw [List.getD_eq_getElem?_getD, List.getElem?_set_ne hir, ← List.getD_eq_getElem?_getD]
    rw [h1]

theorem WFShape_setCell {m : List (List String)} {rows cols r c : Nat} {v : String}
    (h : WFShape m rows cols) : WFShape (setCell m r c v) rows cols := by
  obtain ⟨hlen, hrow⟩ := h
  by_cases hr : r < m.length
  · refine ⟨by rw [setCell, List.length_set]; exact hlen, ?_⟩
    intro row hmem
    rcases List.mem_or_eq_of_mem_set hmem with hmem' | rfl
    · exact hrow row hmem'
    · rw [List.length_set]
      have : m.getD r [] = m[r] := by
        rw [List.getD_eq_getElem?_getD, List.getElem?_eq_getElem hr]
        rfl
      rw [this]
      exact hrow _ (List.getElem_mem _)
  · rw [setCell, List.set_eq_of_length_le (by omega)]
    exact ⟨hlen, hrow⟩

theorem c6_move_clears_iff_moves_witness :
    astep 3 false (array_input.default_validator false)
      ⟨["", "", ""], 1, "5", "E"⟩ .moveLeft = .ok (.cont ⟨["", "", ""], 0, "", ""⟩) := by
  have h := (c6_move_clears_iff_moves.1 3 false (array_input.default_validator false)
    ⟨["", "", ""], 1, "5", "E"⟩ (by decide)).1
  rw [h]; decide

/-- Exhaustive shape of one non-cancel array mutation: it raises, leaves the
cells untouched (moving the cursor at most one step, forward only under the
bound), or commits the formatted non-empty buffer at the cursor. -/
theorem astepState_shape (size : Nat) (v : Validator) (aI : Bool) (st : AState) (a : AAct) :
    (∃ e, astepState size v aI st a = .error e) ∨
    (∃ st', astepState size v aI st a = .ok st' ∧ st'.array = st.array ∧
      (st'.pos = st.pos ∨ st'.pos = st.pos - 1 ∨
        (st'.pos = st.pos + 1 ∧ st.pos < size - 1))) ∨
    (∃ fv, st.buf ≠ "" ∧ array_input.format_number st.buf aI = .ok fv ∧
      astepState size v aI st a
        = .ok ⟨st.array.set st.pos fv,
            if st.pos < size - 1 then st.pos + 1 else st.pos, "", ""⟩) := by
  cases a with
  | cancel => exact Or.inr (Or.inl ⟨st, rfl, rfl, Or.inl rfl⟩)
  | delete =>
    refine Or.inr (Or.inl
      ⟨if st.buf ≠ "" then { st with buf := dropLastStr st.buf, err := "" } else st,
        rfl, ?_, ?_⟩)
    · split <;> rfl
    · split <;> exact Or.inl rfl
  | append c => exact Or.inr (Or.inl ⟨_, rfl, rfl, Or.inl rfl⟩)
  | moveLeft =>
    refine Or.inr (Or.inl
      ⟨if 0 < st.pos then { st with pos := st.pos - 1, buf := "", err := "" } else st,
        rfl, ?_, ?_⟩)
    · split <;> rfl
    · split
      · exact Or.inr (Or.inl rfl)
      · exact Or.inl rfl
  | moveRight =>
    refine Or.inr (Or.inl
      ⟨if st.pos < size - 1 then { st with pos := st.pos + 1, buf := "", err := "" } else st,
        rfl, ?_, ?_⟩)
    · split <;> rfl
    · split
      · rename_i h
        exact Or.inr (Or.inr ⟨rfl, h⟩)
      · exact Or.inl rfl
  | confirm =>
    by_cases hb : st.buf = ""
    · refine Or.inr (Or.inl ⟨if st.pos < size - 1 then { st with pos := st.pos + 1 } else st,
        ?_, ?_, ?_⟩)
      · simp [astepState, hb, except_pure]
      · split <;> rfl
      · split
        · rename_i h
          exact Or.inr (Or.inr ⟨rfl, h⟩)
        · exact Or.inl rfl
    · cases hv : v st.buf with
      | error e =>
        exact Or.inl ⟨e, by simp [astepState, hb, hv, except_bind_error]⟩
      | ok r =>
        obtain ⟨ok1, msg⟩ := r
        cases ok1 with
        | false =>
          refine Or.inr (Or.inl ⟨{ st with err := msg }, ?_, rfl, Or.inl rfl⟩)
          simp [astepState, hb, hv, except_bind_ok, except_pure]
        | true =>
          cases hf : array_input.format_number st.buf aI with
          | error e =>
            exact Or.inl ⟨e, by simp [astepState, hb, hv, hf, except_bind_ok, except_bind_error]⟩
          | ok fv =>
            refine Or.inr (Or.inr ⟨fv, hb, rfl, ?_⟩)
            simp [astepState, hb, hv, hf, except_bind_ok, except_pure]

/-- Exhaustive shape of the matrix Enter handler's `try` body: it raises,
changes only the error message, or commits the formatted buffer at the cursor
and then either jumps to a scan result or finishes. -/
theorem enterBody_shape (rows cols : Nat) (aI aS : Bool) (v : Validator) (st : MState) :
    (∃ e, enterBody rows cols aI aS v st = .error e) ∨
    (∃ msg, enterBody rows cols aI aS v st = .ok (.cont { st with err := msg })) ∨
    (∃ fv, matrix_input.format_number st.buf aI aS = .ok fv ∧
      precheckEnter aI aS st.buf = .ok () ∧ (∃ s, v st.buf = .ok (true, s)) ∧
      ((∃ p, (find_next_empty (setCell st.matrix st.row st.col fv) rows cols st.row st.col
            = some p ∨
          (find_next_empty (setCell st.matrix st.row st.col fv) rows cols st.row st.col
            = none ∧
           find_prev_empty (setCell st.matrix st.row st.col fv) st.row st.col cols = some p)) ∧
        enterBody rows cols aI aS v st
          = .ok (.cont ⟨setCell st.matrix st.row st.col fv, p.1, p.2, "", ""⟩)) ∨
       (find_next_empty (setCell st.matrix st.row st.col fv) rows cols st.row st.col = none ∧
        find_prev_empty (setCell st.matrix st.row st.col fv) st.row st.col cols = none ∧
        enterBody rows cols aI aS v st
          = .ok (.finished (setCell st.matrix st.row st.col fv))))) := by
  cases hpre : precheckEnter aI aS st.buf with
  | error e => exact Or.inl ⟨e, by simp [enterBody, hpre, except_bind_error]⟩
  | ok u =>
    cases u
    cases hv : v st.buf with
    | error e =>
      exact Or.inl ⟨e, by simp [enterBody, hpre, hv, except_bind_ok, except_bind_error]⟩
    | ok r =>
      obtain ⟨ok1, msg⟩ := r
      cases ok1 with
      | false =>
        exact Or.inr (Or.inl ⟨msg, by simp [enterBody, hpre, hv, except_bind_ok, except_pure]⟩)
      | true =>
        cases hf : matrix_input.format_number st.buf aI aS with
        | error e =>
          exact Or.inl ⟨e, by simp [enterBody, hpre, hv, hf, except_bind_ok, except_bind_error]⟩
        | ok fv =>
          refine Or.inr (Or.inr ⟨fv, rfl, rfl, ⟨msg, rfl⟩, ?_⟩)
          cases hfn : find_next_empty (setCell st.matrix st.row st.col fv) rows cols
              st.row st.col with
          | some p =>
            refine Or.inl ⟨p, Or.inl rfl, ?_⟩
            simp [enterBody, hpre, hv, hf, hfn, except_bind_ok, except_pure]
          | none =>
            cases hfp : find_prev_empty (setCell st.matrix st.row st.col fv)
                st.row st.col cols with
            | some p =>
              refine Or.inl ⟨p, Or.inr ⟨rfl, rfl⟩, ?_⟩
              simp [enterBody, hpre, hv, hf, hfn, hfp, except_bind_ok, except_pure]
            | none =>
              refine Or.inr ⟨rfl, rfl, ?_⟩
              simp [enterBody, hpre, hv, hf, hfn, hfp, except_bind_ok, except_pure]

theorem rmLt_trichotomy (p q : Nat × Nat) : p = q ∨ rmLt p q ∨ rmLt q p := by
  obtain ⟨a, b⟩ := p
  obtain ⟨c, d⟩ := q
  unfold rmLt
  rcases Nat.lt_trichotomy a c with h | h | h
  · exact Or.inr (Or.inl (Or.inl h))
  · subst h
    rcases Nat.lt_trichotomy b d with h2 | h2 | h2
    · exact Or.inr (Or.inl (Or.inr ⟨rfl, h2⟩))
    · subst h2
      exact Or.inl rfl
    · exact Or.inr (Or.inr (Or.inr ⟨rfl, h2⟩))
  · exact Or.inr (Or.inr (Or.inl h))

/-- **C9.** The cursor never leaves the grid: every loop iteration that
continues the session keeps the array index below `size` and the matrix
cursor inside `rows × cols` — moves are bounds-guarded and the commit
advance only targets cells produced by the bounded scans. -/
theorem c9_cursor_stays_in_bounds :
    (∀ (size : Nat) (aI : Bool) (v : Validator) (st : AState) (a : AAct) (st' : AState),
      st.pos < size → astep size aI v st a = .ok (.cont st') → st'.pos < size) ∧
    (∀ (rows cols : Nat) (aI aS : Bool) (v : Validator) (st : MState) (a : MAct) (st' : MState),
      st.row < rows → st.col < cols → mstep rows cols aI aS v st a = .ok (.cont st') →
      st'.row < rows ∧ st'.col < cols) := by
  constructor
  · intro size aI v st a st' hst h
    cases a
    case cancel => simp [astep] at h
    all_goals
      simp only [astep] at h
      rcases astepState_shape size v aI st _ with ⟨e, he⟩ | ⟨st'', hok, harr, hpos⟩ |
        ⟨fv, hb, hf, hok⟩
      · rw [he, except_map_error] at h
        cases h
      · rw [hok, except_map_ok] at h
        split at h
        · simp at h
        · simp only [Except.ok.injEq, AOut.cont.injEq] at h
          subst h
          omega
      · rw [hok, except_map_ok] at h
        cases hA : allFilled (st.array.set st.pos fv) with
        | true => simp [hA] at h
        | false =>
          simp only [hA, Bool.false_eq_true, if_false, Except.ok.injEq, AOut.cont.injEq] at h
          subst h
          show (if st.pos < size - 1 then st.pos + 1 else st.pos) < size
          split <;> omega
  · intro rows cols aI aS v st a st' hr hc h
    cases a
    case cancel => simp [mstep] at h
    case up =>
      simp only [mstep, Except.ok.injEq, MOut.cont.injEq] at h
      subst h
      split
      · exact ⟨by show st.row - 1 < rows; omega, hc⟩
      · exact ⟨hr, hc⟩
    case down =>
      simp only [mstep, Except.ok.injEq, MOut.cont.injEq] at h
      subst h
      split
      · rename_i hlt
        exact ⟨by show st.row + 1 < rows; omega, hc⟩
      · exact ⟨hr, hc⟩
    case left =>
      simp only [mstep, Except.ok.injEq, MOut.cont.injEq] at h
      subst h
      split
      · exact ⟨hr, by show st.col - 1 < cols; omega⟩
      · exact ⟨hr, hc⟩
    case right =>
      simp only [mstep, Except.ok.injEq, MOut.cont.injEq] at h
      subst h
      split
      · rename_i hlt
        exact ⟨hr, by show st.col + 1 < cols; omega⟩
      · exact ⟨hr, hc⟩
    case delete =>
      simp only [mstep, Except.ok.injEq, MOut.cont.injEq] at h
      subst h
      split
      · exact ⟨hr, hc⟩
      · exact ⟨hr, hc⟩
    case append c =>
      simp only [mstep, Except.ok.injEq, MOut.cont.injEq] at h
      subst h
      exact ⟨hr, hc⟩
    case confirm =>
      by_cases hb : st.buf = ""
      · simp only [mstep] at h
        rw [if_pos hb] at h
        simp only [Except.ok.injEq, MOut.cont.injEq] at h
        subst h
        exact ⟨hr, hc⟩
      · simp only [mstep] at h
        rw [if_neg hb] at h
        rcases enterBody_shape rows cols aI aS v st with ⟨e, he⟩ | ⟨msg, hm⟩ |
          ⟨fv, hf, hpre, hval, hrest⟩
        · rw [he] at h
          cases e <;> simp at h
          subst h
          exact ⟨hr, hc⟩
        · rw [hm] at h
          simp at h
          subst h
          exact ⟨hr, hc⟩
        · rcases hrest with ⟨p, hfind, hbody⟩ | ⟨hfn, hfp, hbody⟩
          · rw [hbody] at h
            simp at h
            subst h
            show p.1 < rows ∧ p.2 < cols
            rcases hfind with hfn | ⟨hfn, hfp⟩
            · rcases find_next_empty_some hfn with ⟨h1, h2, -⟩
              exact ⟨h1, h2⟩
            · rcases find_prev_empty_some hfp with ⟨h1, -⟩
              rcases h1 with ⟨h1a, h1b⟩ | ⟨h1a, h1b⟩ <;> exact ⟨by omega, by omega⟩
          · rw [hbody] at h
            simp at h

theorem c9_cursor_stays_in_bounds_witness :
    (1 : Nat) < 3 ∧ (0 : Nat) < 2 ∧ (1 : Nat) < 2 := by
  refine ⟨?_, ?_, ?_⟩
  · have h := c9_cursor_stays_in_bounds.1 3 false (array_input.default_validator false)
      ⟨["", "", ""], 0, "", ""⟩ .moveRight ⟨["", "", ""], 1, "", ""⟩ (by decide) (by decide)
    exact h
  · have h := c9_cursor_stays_in_bounds.2 2 2 false false
      (matrix_input.default_validator false false)
      ⟨[["", ""], ["", ""]], 1, 1, "", ""⟩ .up ⟨[["", ""], ["", ""]], 0, 1, "", ""⟩
      (by decide) (by decide) (by decide)
    exact h.1
  · have h := c9_cursor_stays_in_bounds.2 2 2 false false
      (matrix_input.default_validator false false)
      ⟨[["", ""], ["", ""]], 1, 1, "", ""⟩ .up ⟨[["", ""], ["", ""]], 0, 1, "", ""⟩
      (by decide) (by decide) (by decide)
    exact h.2

/-- **C10.** Committed cell values are never the empty string: in both
editors every loop iteration changes a cell only by writing the formatted
value of a non-empty buffer, which is itself non-empty; consequently the
empty string soundly encodes "cell is empty" and `is_matrix_complete` (all
cells non-empty) coincides with "every in-bounds cell has a committed
value". -/
theorem c10_committed_cells_nonempty :
    (∀ (size : Nat) (aI : Bool) (v : Validator) (st : AState) (a : AAct) (out : AOut),
      astep size aI v st a = .ok out →
      ∀ i, (aoutCells out st.array).getD i "" ≠ st.array.getD i "" →
        (aoutCells out st.array).getD i "" ≠ "") ∧
    (∀ (rows cols : Nat) (aI aS : Bool) (v : Validator) (st : MState) (a : MAct) (out : MOut),
      mstep rows cols aI aS v st a = .ok out →
      ∀ i j, cellAt (moutCells out st.matrix) i j ≠ cellAt st.matrix i j →
        cellAt (moutCells out st.matrix) i j ≠ "") ∧
    (∀ (m : List (List String)) (rows cols : Nat), WFShape m rows cols →
      (is_matrix_complete m = true ↔ ∀ i j, i < rows → j < cols → cellAt m i j ≠ "")) := by
  refine ⟨?_, ?_, fun m rows cols h => is_matrix_complete_iff h⟩
  · intro size aI v st a out h i hchg
    cases a
    case cancel =>
      simp only [astep, Except.ok.injEq] at h
      subst h
      exact absurd rfl hchg
    all_goals
      simp only [astep] at h
      rcases astepState_shape size v aI st _ with ⟨e, he⟩ | ⟨st'', hok, harr, -⟩ |
        ⟨fv, hb, hf, hok⟩
      · rw [he, except_map_error] at h
        cases h
      · rw [hok, except_map_ok] at h
        have hcells : aoutCells out st.array = st.array := by
          split at h
          · simp only [Except.ok.injEq] at h
            subst h
            exact harr
          · simp only [Except.ok.injEq] at h
            subst h
            exact harr
        rw [hcells] at hchg
        exact absurd rfl hchg
      · rw [hok, except_map_ok] at h
        have hcells : aoutCells out st.array = st.array.set st.pos fv := by
          cases hA : allFilled (st.array.set st.pos fv) with
          | true =>
            simp only [hA, if_pos] at h
            simp only [Except.ok.injEq] at h
            subst h
            rfl
          | false =>
            simp only [hA, Bool.false_eq_true, if_false] at h
            simp only [Except.ok.injEq] at h
            subst h
            rfl
        rw [hcells] at hchg ⊢
        rcases getD_set_cases st.array st.pos i fv "" with heq | ⟨heq, -, -⟩
        · rw [heq] at hchg
          exact absurd rfl hchg
        · rw [heq]
          exact format_number_ok_ne_empty hb
            ((array_format_number_eq st.buf aI).symm.trans hf)
  · intro rows cols aI aS v st a out h i j hchg
    cases a
    case cancel =>
      simp only [mstep, Except.ok.injEq] at h
      subst h
      exact absurd rfl hchg
    case up =>
      simp only [mstep, Except.ok.injEq] at h
      subst h
      split at hchg <;> exact absurd rfl hchg
    case down =>
      simp only [mstep, Except.ok.injEq] at h
      subst h
      split at hchg <;> exact absurd rfl hchg
    case left =>
      simp only [mstep, Except.ok.injEq] at h
      subst h
      split at hchg <;> exact absurd rfl hchg
    case right =>
      simp only [mstep, Except.ok.injEq] at h
      subst h
      split at hchg <;> exact absurd rfl hchg
    case delete =>
      simp only [mstep, Except.ok.injEq] at h
      subst h
      split at hchg <;> exact absurd rfl hchg
    case append c =>
      simp only [mstep, Except.ok.injEq] at h
      subst h
      exact absurd rfl hchg
    case confirm =>
      by_cases hb : st.buf = ""
      · simp only [mstep] at h
        rw [if_pos hb] at h
        simp only [Except.ok.injEq] at h
        subst h
        exact absurd rfl hchg
      · simp only [mstep] at h
        rw [if_neg hb] at h
        rcases enterBody_shape rows cols aI aS v st with ⟨e, he⟩ | ⟨msg, hm⟩ |
          ⟨fv, hf, hpre, hval, hrest⟩
        · rw [he] at h
          cases e <;> simp at h
          subst h
          exact absurd rfl hchg
        · rw [hm] at h
          simp at h
          subst h
          exact absurd rfl hchg
        · rcases hrest with ⟨p, hfind, hbody⟩ | ⟨hfn, hfp, hbody⟩
          · rw [hbody] at h
            simp at h
            subst h
            show cellAt (setCell st.matrix st.row st.col fv) i j ≠ ""
            rcases cellAt_setCell_cases st.matrix st.row st.col i j fv with heq | heq
            · exact absurd heq hchg
            · rw [heq]
              exact format_number_ok_ne_empty hb hf
          · rw [hbody] at h
            simp at h
            subst h
            show cellAt (setCell st.matrix st.row st.col fv) i j ≠ ""
            rcases cellAt_setCell_cases st.matrix st.row st.col i j fv with heq | heq
            · exact absurd heq hchg
            · rw [heq]
              exact format_number_ok_ne_empty hb hf

set_option maxRecDepth 40000 in
theorem c10_committed_cells_nonempty_witness :
    (aoutCells (.cont ⟨["1", ""], 1, "", ""⟩) ["", ""]).getD 0 "" ≠ "" := by
  refine c10_committed_cells_nonempty.1 2 false (array_input.default_validator false)
    ⟨["", ""], 0, "1", ""⟩ .confirm (.cont ⟨["1", ""], 1, "", ""⟩) ?_ 0 ?_ <;> decide

/-- **C4.** The matrix commit-advance policy: `find_next_empty` returns the
first empty cell in row-major order strictly after the cursor (none exactly
when there is no such cell), `find_prev_empty` returns the first empty cell
from the start of the grid up to (but excluding) the cursor, and after a
successful commit the Enter handler moves to the first scan's result, else
the second's, else terminates the session — and termination happens exactly
when the updated grid is complete. -/
theorem c4_commit_advance_policy :
    (∀ (m : List (List String)) (rows cols row col : Nat),
      find_next_empty m rows cols row col = none ↔
        ∀ q : Nat × Nat, q.1 < rows → q.2 < cols → rmLt (row, col) q →
          cellAt m q.1 q.2 ≠ "") ∧
    (∀ (m : List (List String)) (rows cols row col : Nat) (p : Nat × Nat),
      find_next_empty m rows cols row col = some p →
        p.1 < rows ∧ p.2 < cols ∧ rmLt (row, col) p ∧ cellAt m p.1 p.2 = "" ∧
          ∀ q : Nat × Nat, q.1 < rows → q.2 < cols → rmLt (row, col) q →
            cellAt m q.1 q.2 = "" → q = p ∨ rmLt p q) ∧
    (∀ (m : List (List String)) (row col cols : Nat),
      find_prev_empty m row col cols = none ↔
        ∀ q : Nat × Nat, (q.1 < row ∧ q.2 < cols) ∨ (q.1 = row ∧ q.2 < col) →
          cellAt m q.1 q.2 ≠ "") ∧
    (∀ (m : List (List String)) (row col cols : Nat) (p : Nat × Nat),
      find_prev_empty m row col cols = some p →
        ((p.1 < row ∧ p.2 < cols) ∨ (p.1 = row ∧ p.2 < col)) ∧ cellAt m p.1 p.2 = "" ∧
          ∀ q : Nat × Nat, (q.1 < row ∧ q.2 < cols) ∨ (q.1 = row ∧ q.2 < col) →
            cellAt m q.1 q.2 = "" → q = p ∨ rmLt p q) ∧
    (∀ (rows cols : Nat) (aI aS : Bool) (v : Validator) (st : MState) (fv s : String),
      WFShape st.matrix rows cols → st.row < rows → st.col < cols → st.buf ≠ "" →
      precheckEnter aI aS st.buf = .ok () → v st.buf = .ok (true, s) →
      matrix_input.format_number st.buf aI aS = .ok fv →
      mstep rows cols aI aS v st .confirm
        = .ok (match find_next_empty (setCell st.matrix st.row st.col fv) rows cols
              st.row st.col with
          | some p => .cont ⟨setCell st.matrix st.row st.col fv, p.1, p.2, "", ""⟩
          | none =>
            match find_prev_empty (setCell st.matrix st.row st.col fv) st.row st.col cols with
            | some p => .cont ⟨setCell st.matrix st.row st.col fv, p.1, p.2, "", ""⟩
            | none => .finished (setCell st.matrix st.row st.col fv)) ∧
      ((find_next_empty (setCell st.matrix st.row st.col fv) rows cols st.row st.col = none ∧
        find_prev_empty (setCell st.matrix st.row st.col fv) st.row st.col cols = none)
        ↔ is_matrix_complete (setCell st.matrix st.row st.col fv) = true)) := by
  refine ⟨fun m rows cols row col => find_next_empty_none_iff m rows cols row col,
    fun m rows cols row col p h => find_next_empty_some h,
    fun m row col cols => find_prev_empty_none_iff m row col cols,
    fun m row col cols p h => find_prev_empty_some h, ?_⟩
  intro rows cols aI aS v st fv s hshape hrow hcol hbuf hpre hv hfmt
  have hbody : enterBody rows cols aI aS v st
      = .ok (match find_next_empty (setCell st.matrix st.row st.col fv) rows cols
            st.row st.col with
        | some p => .cont ⟨setCell st.matrix st.row st.col fv, p.1, p.2, "", ""⟩
        | none =>
          match find_prev_empty (setCell st.matrix st.row st.col fv) st.row st.col cols with
          | some p => .cont ⟨setCell st.matrix st.row st.col fv, p.1, p.2, "", ""⟩
          | none => .finished (setCell st.matrix st.row st.col fv)) := by
    unfold enterBody
    rw [hpre, except_bind_ok, hv, except_bind_ok, if_pos rfl, hfmt, except_bind_ok,
      except_pure]
  constructor
  · simp only [mstep]
    rw [if_neg hbuf, hbody]
  · have hfv : fv ≠ "" := format_number_ok_ne_empty hbuf hfmt
    have hshape' : WFShape (setCell st.matrix st.row st.col fv) rows cols :=
      WFShape_setCell hshape
    have hrlen : st.row < st.matrix.length := by rw [hshape.1]; exact hrow
    have hclen : st.col < (st.matrix.getD st.row []).length := by
      rw [WFShape_row_len hshape hrow]
      exact hcol
    have hcommitted : cellAt (setCell st.matrix st.row st.col fv) st.row st.col ≠ "" := by
      rw [cellAt_setCell_self hrlen hclen]
      exact hfv
    constructor
    · rintro ⟨hn, hp⟩
      rw [is_matrix_complete_iff hshape']
      intro i j hi hj
      rcases rmLt_trichotomy (st.row, st.col) (i, j) with heq | hlt | hgt
      · have h1 : st.row = i ∧ st.col = j := by simpa using heq
        rw [← h1.1, ← h1.2]
        exact hcommitted
      · exact (find_next_empty_none_iff _ _ _ _ _).mp hn (i, j) hi hj hlt
      · refine (find_prev_empty_none_iff _ _ _ _).mp hp (i, j) ?_
        rcases hgt with hcase | ⟨h1, h2⟩
        · exact Or.inl ⟨hcase, hj⟩
        · exact Or.inr ⟨h1, h2⟩
    · intro hcomp
      have hall := (is_matrix_complete_iff hshape').mp hcomp
      constructor
      · rw [find_next_empty_none_iff]
        intro q h1 h2 _
        exact hall q.1 q.2 h1 h2
      · rw [find_prev_empty_none_iff]
        intro q hq
        rcases hq with ⟨h1, h2⟩ | ⟨h1, h2⟩
        · exact hall q.1 q.2 (by omega) h2
        · exact hall q.1 q.2 (by omega) (by omega)

set_option maxRecDepth 40000 in
theorem c4_commit_advance_policy_witness :
    mstep 2 2 false false (matrix_input.default_validator false false)
      ⟨[["", ""], ["", ""]], 0, 0, "1", ""⟩ .confirm
      = .ok (match find_next_empty (setCell [["", ""], ["", ""]] 0 0 "1") 2 2 0 0 with
        | some p => .cont ⟨setCell [["", ""], ["", ""]] 0 0 "1", p.1, p.2, "", ""⟩
        | none =>
          match find_prev_empty (setCell [["", ""], ["", ""]] 0 0 "1") 0 0 2 with
          | some p => .cont ⟨setCell [["", ""], ["", ""]] 0 0 "1", p.1, p.2, "", ""⟩
          | none => .finished (setCell [["", ""], ["", ""]] 0 0 "1")) ∧
      ((find_next_empty (setCell [["", ""], ["", ""]] 0 0 "1") 2 2 0 0 = none ∧
        find_prev_empty (setCell [["", ""], ["", ""]] 0 0 "1") 0 0 2 = none)
        ↔ is_matrix_complete (setCell [["", ""], ["", ""]] 0 0 "1") = true) := by
  refine c4_commit_advance_policy.2.2.2.2 2 2 false false
    (matrix_input.default_validator false false)
    ⟨[["", ""], ["", ""]], 0, 0, "1", ""⟩ "1" "" ?_ ?_ ?_ ?_ ?_ ?_ ?_ <;> decide

end BmstuLabs
